import Mathlib

/-!
Verification of the formatting core of `physical_constants.py`
(repository envon-x/texumsa).

The two functions under study are `format_unit` and
`format_uncertain_value`.  Both are embedded below as executable Lean
functions over `String` / `List Char`, following the Python source
line by line.  The Python regular expressions

  unit_regex   = \b([a-zA-Z]+)(?:\^(-?)(\d+))?\b
  number_regex = ([+-]?)(\d+)(\.?)(\d*)(e?)([+-]?\d*)

are anchored, backtracking-free in effect (every greedy choice that can
lead to a successful match is the maximal one), so they are embedded as
deterministic scanners.  Word characters are modelled as ASCII letters,
ASCII digits and the underscore; word characters outside ASCII are not
modelled.  The expression `ceil(float(f"{digits}e{d}"))` in the Python
source goes through an IEEE-754 binary64 value; the conversion (correctly
rounded, round half to even, with gradual underflow and overflow to
infinity) is modelled exactly by `roundToDouble` below, and the
`OverflowError` that `math.ceil` raises on an infinite value is modelled
as `none`.
-/

namespace Texumsa

/-! ### Character classes -/

def isDigitCh (c : Char) : Bool := c.isDigit

def isAlphaCh (c : Char) : Bool := c.isAlpha

/-- Python `\w`, restricted to ASCII. -/
def isWordCh (c : Char) : Bool := c.isAlpha || c.isDigit || c == '_'

/-- Split off a single leading character satisfying `p` (the regex `X?`
on a one-character class): returns the (possibly empty) matched part and
the remainder. -/
def splitIf (p : Char → Bool) : List Char → List Char × List Char
  | [] => ([], [])
  | c :: r => if p c then ([c], r) else ([], c :: r)

theorem splitIf_append (p : Char → Bool) (l : List Char) :
    (splitIf p l).1 ++ (splitIf p l).2 = l := by
  cases l with
  | nil => rfl
  | cons c r =>
    simp only [splitIf]
    by_cases h : p c = true
    · simp [h]
    · simp [h]

/-! ### The number regex

`number_regex.fullmatch` with groups
sign, integer digits, decimal point, fractional digits, exponent
marker, signed exponent digit run. -/

structure NumParts where
  sign : List Char
  intd : List Char
  point : List Char
  frac : List Char
  emark : List Char
  expd : List Char
deriving DecidableEq

def isSignCh (c : Char) : Bool := c == '+' || c == '-'

/-- `number_regex.fullmatch` on the character list of the input.
Returns the six captured groups, or `none` when the whole string is not
matched. -/
def numberFullmatchL (cs : List Char) : Option NumParts :=
  let s1 := splitIf isSignCh cs
  let intd := s1.2.takeWhile isDigitCh
  let r2 := s1.2.dropWhile isDigitCh
  if intd.isEmpty then none else
  let s3 := splitIf (fun c => c == '.') r2
  let frac := s3.2.takeWhile isDigitCh
  let r4 := s3.2.dropWhile isDigitCh
  let s5 := splitIf (fun c => c == 'e') r4
  let s6 := splitIf isSignCh s5.2
  let ed := s6.2.takeWhile isDigitCh
  let r7 := s6.2.dropWhile isDigitCh
  if r7.isEmpty then some ⟨s1.1, intd, s3.1, frac, s5.1, s6.1 ++ ed⟩
  else none

/-- The six groups of a full match are contiguous and cover the whole
input: concatenating them gives back the input string. -/
theorem numberFullmatchL_append {cs : List Char} {p : NumParts}
    (h : numberFullmatchL cs = some p) :
    p.sign ++ p.intd ++ p.point ++ p.frac ++ p.emark ++ p.expd = cs := by
  unfold numberFullmatchL at h
  set sg := (splitIf isSignCh cs).1 with hsg
  set r1 := (splitIf isSignCh cs).2 with hr1
  have e1 : sg ++ r1 = cs := splitIf_append _ _
  set intd := r1.takeWhile isDigitCh with hintd
  set r2 := r1.dropWhile isDigitCh with hr2
  have e2 : intd ++ r2 = r1 := List.takeWhile_append_dropWhile _ _
  set pt := (splitIf (fun c => c == '.') r2).1 with hpt
  set r3 := (splitIf (fun c => c == '.') r2).2 with hr3
  have e3 : pt ++ r3 = r2 := splitIf_append _ _
  set frac := r3.takeWhile isDigitCh with hfrac
  set r4 := r3.dropWhile isDigitCh with hr4
  have e4 : frac ++ r4 = r3 := List.takeWhile_append_dropWhile _ _
  set em := (splitIf (fun c => c == 'e') r4).1 with hem
  set r5 := (splitIf (fun c => c == 'e') r4).2 with hr5
  have e5 : em ++ r5 = r4 := splitIf_append _ _
  set es := (splitIf isSignCh r5).1 with hes
  set r6 := (splitIf isSignCh r5).2 with hr6
  have e6 : es ++ r6 = r5 := splitIf_append _ _
  set ed := r6.takeWhile isDigitCh with hed
  set r7 := r6.dropWhile isDigitCh with hr7
  have e7 : ed ++ r7 = r6 := List.takeWhile_append_dropWhile _ _
  by_cases hi : intd.isEmpty
  · simp [hi] at h
  · rw [if_neg hi] at h
    by_cases h7 : r7.isEmpty
    · rw [if_pos h7] at h
      have h7e : r7 = [] := List.isEmpty_iff.mp h7
      rw [h7e, List.append_nil] at e7
      have hp : p = ⟨sg, intd, pt, frac, em, es ++ ed⟩ :=
        (Option.some.inj h).symm
      rw [hp]
      show sg ++ intd ++ pt ++ frac ++ em ++ (es ++ ed) = cs
      rw [e7]
      simp only [List.append_assoc]
      rw [e6, e5, e4, e3, e2, e1]
    · rw [if_neg h7] at h
      exact absurd h (by simp)

/-! ### Python integer-string helpers -/

/-- Numeric value of a digit string (models Python `int` on a string of
decimal digits, possibly with leading zeros). -/
def digitsToNat (cs : List Char) : Nat :=
  cs.foldl (fun a c => a * 10 + (c.toNat - 48)) 0

/-- Models `int(s) if s else 0` for a regex group `s` matching
`[+-]?\d*`: the empty group gives `0`; a bare sign has no digits and
`int` raises `ValueError`, modelled as `none`. -/
def parseExpInt : List Char → Option Int
  | [] => some 0
  | '+' :: r => if r.isEmpty then none else some (digitsToNat r)
  | '-' :: r => if r.isEmpty then none else some (-(digitsToNat r : Int))
  | r => some (digitsToNat r)

/-- The decimal digit character for `m % 10` (models the digits that
Python `str` of a nonnegative integer emits). -/
def digitCh (m : Nat) : Char :=
  if m = 0 then '0' else if m = 1 then '1' else if m = 2 then '2'
  else if m = 3 then '3' else if m = 4 then '4' else if m = 5 then '5'
  else if m = 6 then '6' else if m = 7 then '7' else if m = 8 then '8'
  else '9'

def natReprAux : Nat → Nat → List Char → List Char
  | 0, _, acc => acc
  | f + 1, n, acc =>
    if n = 0 then acc else natReprAux f (n / 10) (digitCh (n % 10) :: acc)

/-- Decimal representation of a natural number, as Python `str` of a
nonnegative `int` produces it (no leading zeros, `"0"` for zero). -/
def natRepr (n : Nat) : List Char :=
  if n = 0 then ['0'] else natReprAux n n []

def zeros (n : Nat) : List Char := List.replicate n '0'

/-! ### The binary64 model for `ceil(float(...))` -/

/-- Number of binary digits of `n` (0 for 0), fuel-based so that it
reduces definitionally. -/
def bitlenAux : Nat → Nat → Nat
  | 0, _ => 0
  | f + 1, n => if n = 0 then 0 else bitlenAux f (n / 2) + 1

def bitlen (n : Nat) : Nat := bitlenAux n n

/-- Decides `2 ^ f * tenk ≤ u` for an integer `f`. -/
def pow2le (u tenk : Nat) (f : Int) : Bool :=
  if 0 ≤ f then 2 ^ f.toNat * tenk ≤ u else tenk ≤ u * 2 ^ (-f).toNat

/-- `⌊log₂ (u / tenk)⌋` for `u ≥ 1`, `tenk ≥ 1`. -/
def floorLog2Rat (u tenk : Nat) : Int :=
  let f0 : Int := ((bitlen u : Int) - 1) - ((bitlen tenk : Int) - 1)
  if pow2le u tenk f0 then f0 else f0 - 1

/-- Round `num / den` to the nearest integer, ties to even. -/
def rne (num den : Nat) : Nat :=
  let d := num / den
  let r := num % den
  if 2 * r < den then d
  else if den < 2 * r then d + 1
  else if d % 2 = 0 then d else d + 1

/-- The IEEE-754 binary64 value nearest to `u * 10 ^ (-(k : Int))`
(`u ≥ 1`), as a pair `(n, E)` denoting the exact rational `n * 2 ^ E`;
`none` denotes overflow to infinity.  Round half to even; values below
half the least subnormal round to `n = 0`. -/
def roundToDouble (u k : Nat) : Option (Nat × Int) :=
  let tenk := 10 ^ k
  if (2 ^ 54 - 1) * 2 ^ 970 * tenk ≤ u then none
  else
    let f := floorLog2Rat u tenk
    let E : Int := max (f - 52) (-1074)
    let n := if 0 ≤ E then rne u (tenk * 2 ^ E.toNat)
             else rne (u * 2 ^ (-E).toNat) tenk
    some (n, E)

/-- Models the Python expression
`ceil(float("{u}e-{k}"))` for a digit string of value `u` and `k ≥ 1`:
the decimal is converted to the nearest binary64 value and the exact
ceiling of that value is taken.  `none` models the `OverflowError`
raised by `math.ceil` on an infinite value. -/
def ceilFloat (u k : Nat) : Option Nat :=
  match roundToDouble u k with
  | none => none
  | some (n, E) =>
    some (if 0 ≤ E then n * 2 ^ E.toNat
          else (n + 2 ^ (-E).toNat - 1) / 2 ^ (-E).toNat)

/-! ### The uncertainty aligner -/

inductive FmtError where
  | malformed (s : String)
  | valueError
  | overflow
deriving DecidableEq

/-- The format string `'{0}{1}{2}{3}({6}){4}{5}'` applied to the six
groups of the value and the display digits of the uncertainty. -/
def recompose (p : NumParts) (u : List Char) : String :=
  String.mk (p.sign ++ p.intd ++ p.point ++ p.frac ++
    ('(' :: (u ++ [')'])) ++ p.emark ++ p.expd)

/-- Embedding of `format_uncertain_value` from the source.  Errors:
`malformed s` models the failure of `number_regex.fullmatch(s)`
(`AttributeError` in the source, `MalformedNumberError` in the spec);
`valueError` models `int` applied to a bare-sign exponent group;
`overflow` models `math.ceil` applied to an infinite float. -/
def format_uncertain_value (value_input uncertainty_input : String) :
    Except FmtError String :=
  match numberFullmatchL value_input.data with
  | none => .error (.malformed value_input)
  | some vp =>
    match numberFullmatchL uncertainty_input.data with
    | none => .error (.malformed uncertainty_input)
    | some up =>
      let uncDigits := up.intd ++ up.frac
      if digitsToNat uncDigits = 0 then .ok (recompose vp ['0'])
      else
        match parseExpInt vp.expd with
        | none => .error .valueError
        | some ve =>
          match parseExpInt up.expd with
          | none => .error .valueError
          | some ue =>
            let disc : Int :=
              (ue - up.frac.length) - (ve - vp.frac.length)
            if disc < 0 then
              match ceilFloat (digitsToNat uncDigits) (-disc).toNat with
              | none => .error .overflow
              | some c => .ok (recompose vp (natRepr c))
            else
              .ok (recompose vp (uncDigits ++ zeros disc.toNat))

/-! ### The unit formatter

`unit_regex.findall` followed by the rendering loop of `format_unit`. -/

/-- One `(base, sign, exponent)` triple captured by `unit_regex`. -/
structure UnitToken where
  base : List Char
  sign : List Char
  exp : List Char
deriving DecidableEq

/-- The word-boundary test `\b` after a word character: satisfied at the
end of the input or before a non-word character. -/
def boundaryAfter : List Char → Bool
  | [] => true
  | c :: _ => !isWordCh c

/-- Attempt to match `unit_regex` at the start of `l`, assuming the
position is a word boundary (the caller checks the character before).
Returns the captured triple and the rest of the input after the match.
Greedy group semantics: the letter run and the exponent digit run are
maximal; when the optional `\^(-?)(\d+)` part cannot complete with a
word boundary after it, the regex falls back to matching the bare
letter run (the `^` that follows is a non-word character, so the final
`\b` holds there). -/
def matchTok : List Char → Option (UnitToken × List Char)
  | [] => none
  | c :: cs =>
    if isAlphaCh c then
      let base := c :: cs.takeWhile isAlphaCh
      let r1 := cs.dropWhile isAlphaCh
      match r1 with
      | '^' :: r2 =>
        let s := splitIf (fun x => x == '-') r2
        let digits := s.2.takeWhile isDigitCh
        let r4 := s.2.dropWhile isDigitCh
        if !digits.isEmpty && boundaryAfter r4 then
          some (⟨base, s.1, digits⟩, r4)
        else some (⟨base, [], []⟩, r1)
      | _ => if boundaryAfter r1 then some (⟨base, [], []⟩, r1) else none
    else none

/-- `unit_regex.findall`: scan left to right; at each position that is a
word boundary followed by a letter, try to match; on success continue
after the match, otherwise advance one character.  `prevW` records
whether the character before the current position is a word character
(false at the start of the string).  Fuel-based so that it reduces
definitionally; the fuel is at least the input length plus one, and every
step consumes at least one character. -/
def scanAuxF : Nat → Bool → List Char → List UnitToken
  | 0, _, _ => []
  | _, _, [] => []
  | f + 1, prevW, c :: rest =>
    if !prevW && isAlphaCh c then
      match matchTok (c :: rest) with
      | some (t, r) => t :: scanAuxF f true r
      | none => scanAuxF f (isWordCh c) rest
    else scanAuxF f (isWordCh c) rest

def scanTokens (s : String) : List UnitToken :=
  scanAuxF (s.data.length + 1) false s.data

/-- The fixed symbol table `unit_map` from the source. -/
def unit_map : List (String × String) :=
  [("A", "\\ampere"), ("C", "\\coulomb"), ("F", "\\farad"),
   ("GeV", "\\giga\\electronvolt"), ("Hz", "\\hertz"), ("J", "\\joule"),
   ("K", "\\kelvin"), ("MHz", "\\mega\\hertz"),
   ("MeV", "\\mega\\electronvolt"), ("N", "\\newton"),
   ("Pa", "\\pascal"), ("S", "\\siemens"), ("T", "\\tesla"),
   ("V", "\\volt"), ("W", "\\watt"), ("Wb", "\\weber"),
   ("c", "\\clight"), ("eV", "\\electronvolt"),
   ("fm", "\\femto\\meter"), ("kg", "\\kilogram"), ("m", "\\metre"),
   ("mol", "\\mole"), ("ohm", "\\ohm"), ("s", "\\second"),
   ("sr", "\\steradian"), ("u", "\\atomicmassunit")]

/-- The reciprocal marker: `\per` when the sign group is nonempty. -/
def perMark (sg : List Char) : String := if sg = [] then "" else "\\per"

/-- The power marker of the rendering loop: nothing for exponent group
`"1"`, `\square` for `"2"`, `\cube` for `"3"`, nothing for an absent
exponent, `\raiseto` with the digits in braces otherwise. -/
def powMark (e : List Char) : String :=
  if e = ['1'] then ""
  else if e = ['2'] then "\\square"
  else if e = ['3'] then "\\cube"
  else if e = [] then ""
  else "\\raiseto\x7b" ++ String.mk e ++ "\x7d"

/-- The rendering loop of `format_unit` over the captured triples: the
reciprocal and power markers are appended, then the markup looked up in
`unit_map`; a base symbol absent from the table raises (`KeyError` in
the source, `UnknownUnitError` in the spec), modelled as `.error`
carrying the offending symbol. -/
def formatGo : List UnitToken → String → Except String String
  | [], acc => .ok acc
  | t :: ts, acc =>
    let acc1 := acc ++ perMark t.sign ++ powMark t.exp
    match unit_map.lookup (String.mk t.base) with
    | none => .error (String.mk t.base)
    | some mk => formatGo ts (acc1 ++ mk)

/-- Embedding of `format_unit` from the source. -/
def format_unit (unit_input : String) : Except String String :=
  formatGo (scanTokens unit_input) ""

/-! ### Helper lemmas about the parsed pieces -/

theorem splitIf_fst (p : Char → Bool) (l : List Char) :
    (splitIf p l).1 = [] ∨ ∃ c, (splitIf p l).1 = [c] ∧ p c = true := by
  cases l with
  | nil => exact Or.inl rfl
  | cons c r =>
    by_cases h : p c = true
    · exact Or.inr ⟨c, by simp [splitIf, h], h⟩
    · exact Or.inl (by simp [splitIf, h])

/-- The groups of a full number match are drawn from fixed character
classes: the sign group is empty or one sign character, the digit
groups hold only decimal digits, the point group is empty or `"."`. -/
theorem numberFullmatchL_classes {cs : List Char} {p : NumParts}
    (h : numberFullmatchL cs = some p) :
    (∀ c ∈ p.sign, isSignCh c = true) ∧
    (∀ c ∈ p.intd, isDigitCh c = true) ∧
    (p.point = [] ∨ p.point = ['.']) ∧
    (∀ c ∈ p.frac, isDigitCh c = true) := by
  unfold numberFullmatchL at h
  set sg := (splitIf isSignCh cs).1 with hsg
  set r1 := (splitIf isSignCh cs).2 with hr1
  set intd := r1.takeWhile isDigitCh with hintd
  set r2 := r1.dropWhile isDigitCh with hr2
  set pt := (splitIf (fun c => c == '.') r2).1 with hpt
  set r3 := (splitIf (fun c => c == '.') r2).2 with hr3
  set frac := r3.takeWhile isDigitCh with hfrac
  set r4 := r3.dropWhile isDigitCh with hr4
  set em := (splitIf (fun c => c == 'e') r4).1 with hem
  set r5 := (splitIf (fun c => c == 'e') r4).2 with hr5
  set es := (splitIf isSignCh r5).1 with hes
  set r6 := (splitIf isSignCh r5).2 with hr6
  set ed := r6.takeWhile isDigitCh with hed
  set r7 := r6.dropWhile isDigitCh with hr7
  by_cases hi : intd.isEmpty
  · simp [hi] at h
  · rw [if_neg hi] at h
    by_cases h7 : r7.isEmpty
    · rw [if_pos h7] at h
      have hp : p = ⟨sg, intd, pt, frac, em, es ++ ed⟩ :=
        (Option.some.inj h).symm
      rw [hp]
      refine ⟨?_, ?_, ?_, ?_⟩
      · intro c hc
        rcases splitIf_fst isSignCh cs with he | ⟨c', he, hc'⟩
        · rw [hsg, he] at hc; cases hc
        · rw [hsg, he] at hc
          rcases List.mem_singleton.mp hc with rfl
          exact hc'
      · intro c hc
        exact List.mem_takeWhile_imp (hintd ▸ hc)
      · rcases splitIf_fst (fun c => c == '.') r2 with he | ⟨c', he, hc'⟩
        · exact Or.inl (hpt ▸ he)
        · refine Or.inr ?_
          rw [hpt, he]
          rw [show c' = '.' from by simpa using hc']
      · intro c hc
        exact List.mem_takeWhile_imp (hfrac ▸ hc)
    · rw [if_neg h7] at h
      exact absurd h (by simp)

theorem takeWhile_append_sat {p : Char → Bool} {a : List Char}
    (h : ∀ c ∈ a, p c = true) {x : Char} (hx : p x = false)
    (b : List Char) : (a ++ x :: b).takeWhile p = a := by
  induction a with
  | nil => simp [List.takeWhile, hx]
  | cons c r ih =>
    have hc : p c = true := h c (List.mem_cons_self c r)
    simp only [List.cons_append, List.takeWhile_cons, hc, if_true]
    rw [ih (fun c' hc' => h c' (List.mem_cons_of_mem c hc'))]

theorem dropWhile_append_sat {p : Char → Bool} {a : List Char}
    (h : ∀ c ∈ a, p c = true) {x : Char} (hx : p x = false)
    (b : List Char) : (a ++ x :: b).dropWhile p = x :: b := by
  induction a with
  | nil => simp [List.dropWhile, hx]
  | cons c r ih =>
    have hc : p c = true := h c (List.mem_cons_self c r)
    simp only [List.cons_append, List.dropWhile_cons, hc, if_true]
    exact ih (fun c' hc' => h c' (List.mem_cons_of_mem c hc'))

/-! ### Stripping the parenthetical (from the claim's words) -/

/-- Remove the parenthesized part of the output: the text before the
first `(` followed by the text after the first `)`. -/
def stripParenL (cs : List Char) : List Char :=
  cs.takeWhile (fun c => c != '(') ++ (cs.dropWhile (fun c => c != ')')).drop 1

def stripParen (s : String) : String := String.mk (stripParenL s.data)

theorem stripParenL_spec {a d b : List Char}
    (ha : ∀ c ∈ a, c ≠ '(' ∧ c ≠ ')') (hd : ∀ c ∈ d, c ≠ ')') :
    stripParenL (a ++ '(' :: (d ++ ')' :: b)) = a ++ b := by
  unfold stripParenL
  have h1 : (a ++ '(' :: (d ++ ')' :: b)).takeWhile (fun c => c != '(') = a := by
    apply takeWhile_append_sat
    · intro c hc
      simpa using (ha c hc).1
    · simp
  have hassoc : a ++ '(' :: (d ++ ')' :: b) = (a ++ '(' :: d) ++ ')' :: b := by
    simp
  have h2 : (a ++ '(' :: (d ++ ')' :: b)).dropWhile (fun c => c != ')') =
      ')' :: b := by
    rw [hassoc]
    apply dropWhile_append_sat
    · intro c hc
      rcases List.mem_append.mp hc with hc' | hc'
      · simpa using (ha c hc').2
      · rcases List.mem_cons.mp hc' with rfl | hc''
        · simp
        · simpa using hd c hc''
    · simp
  rw [h1, h2]
  rfl

/-! ### Digit-character lemmas for the displayed uncertainty -/

theorem digitCh_isDigit (m : Nat) : isDigitCh (digitCh m) = true := by
  unfold digitCh
  repeat' split
  all_goals decide

theorem natReprAux_digits (f : Nat) :
    ∀ (n : Nat) (acc : List Char), (∀ c ∈ acc, isDigitCh c = true) →
      ∀ c ∈ natReprAux f n acc, isDigitCh c = true := by
  induction f with
  | zero => intro n acc hacc c hc; exact hacc c hc
  | succ f ih =>
    intro n acc hacc c hc
    unfold natReprAux at hc
    by_cases hn : n = 0
    · rw [if_pos hn] at hc; exact hacc c hc
    · rw [if_neg hn] at hc
      refine ih (n / 10) (digitCh (n % 10) :: acc) ?_ c hc
      intro c' hc'
      rcases List.mem_cons.mp hc' with rfl | hc''
      · exact digitCh_isDigit _
      · exact hacc c' hc''

theorem natRepr_digits (n : Nat) : ∀ c ∈ natRepr n, isDigitCh c = true := by
  unfold natRepr
  by_cases hn : n = 0
  · rw [if_pos hn]; intro c hc; rcases List.mem_singleton.mp hc with rfl; decide
  · rw [if_neg hn]
    exact natReprAux_digits n n [] (by intro c hc; cases hc)

theorem zeros_digits (n : Nat) : ∀ c ∈ zeros n, isDigitCh c = true := by
  intro c hc
  rcases List.eq_of_mem_replicate hc with rfl
  decide

theorem digit_ne_paren {c : Char} (h : isDigitCh c = true) :
    c ≠ '(' ∧ c ≠ ')' := by
  constructor <;> rintro rfl <;> exact absurd h (by decide)

theorem sign_ne_paren {c : Char} (h : isSignCh c = true) :
    c ≠ '(' ∧ c ≠ ')' := by
  constructor <;> rintro rfl <;> exact absurd h (by decide)

/-- Stripping the parenthetical from a recomposed output yields the
concatenation of the six groups of the value, provided the displayed
uncertainty consists of digits. -/
theorem stripParen_recompose {p : NumParts} {d : List Char}
    (hd : ∀ c ∈ d, isDigitCh c = true)
    (hsign : ∀ c ∈ p.sign, isSignCh c = true)
    (hintd : ∀ c ∈ p.intd, isDigitCh c = true)
    (hpt : p.point = [] ∨ p.point = ['.'])
    (hfrac : ∀ c ∈ p.frac, isDigitCh c = true) :
    stripParen (recompose p d) =
      String.mk (p.sign ++ p.intd ++ p.point ++ p.frac ++ p.emark ++ p.expd) := by
  have ha : ∀ c ∈ p.sign ++ (p.intd ++ (p.point ++ p.frac)),
      c ≠ '(' ∧ c ≠ ')' := by
    intro c hc
    rcases List.mem_append.mp hc with hc' | hc'
    · exact sign_ne_paren (hsign c hc')
    · rcases List.mem_append.mp hc' with hc'' | hc''
      · exact digit_ne_paren (hintd c hc'')
      · rcases List.mem_append.mp hc'' with hc3 | hc3
        · rcases hpt with he | he
          · rw [he] at hc3; cases hc3
          · rw [he] at hc3
            rcases List.mem_singleton.mp hc3 with rfl
            exact ⟨by decide, by decide⟩
        · exact digit_ne_paren (hfrac c hc3)
  have hd' : ∀ c ∈ d, c ≠ ')' := fun c hc => (digit_ne_paren (hd c hc)).2
  have key := stripParenL_spec (b := p.emark ++ p.expd) ha hd'
  unfold stripParen recompose
  have hshape : (p.sign ++ p.intd ++ p.point ++ p.frac ++
      ('(' :: (d ++ [')'])) ++ p.emark ++ p.expd) =
      (p.sign ++ (p.intd ++ (p.point ++ p.frac))) ++
        '(' :: (d ++ ')' :: (p.emark ++ p.expd)) := by
    simp
  rw [show (String.mk (p.sign ++ p.intd ++ p.point ++ p.frac ++
      ('(' :: (d ++ [')'])) ++ p.emark ++ p.expd)).data =
      p.sign ++ p.intd ++ p.point ++ p.frac ++
      ('(' :: (d ++ [')'])) ++ p.emark ++ p.expd from rfl]
  rw [hshape, key]
  congr 1
  simp

/-- The display digits of every successful output: each branch of the
uncertainty aligner inserts a digit string. -/
theorem format_uncertain_value_ok {v u out : String}
    (h : format_uncertain_value v u = Except.ok out) :
    ∃ vp d, numberFullmatchL v.data = some vp ∧
      (∀ c ∈ d, isDigitCh c = true) ∧ out = recompose vp d := by
  simp only [format_uncertain_value] at h
  rcases hv : numberFullmatchL v.data with _ | vp
  · rw [hv] at h; simp at h
  · rw [hv] at h
    rcases hu : numberFullmatchL u.data with _ | up
    · rw [hu] at h; simp at h
    · rw [hu] at h
      simp only [] at h
      by_cases hz : digitsToNat (up.intd ++ up.frac) = 0
      · rw [if_pos hz] at h
        refine ⟨vp, ['0'], rfl, ?_, (Except.ok.inj h).symm⟩
        intro c hc; rcases List.mem_singleton.mp hc with rfl; decide
      · rw [if_neg hz] at h
        rcases hve : parseExpInt vp.expd with _ | ve
        · rw [hve] at h; simp at h
        · rw [hve] at h
          rcases hue : parseExpInt up.expd with _ | ue
          · rw [hue] at h; simp at h
          · rw [hue] at h
            simp only [] at h
            by_cases hd : (ue - (up.frac.length : Int)) -
                (ve - (vp.frac.length : Int)) < 0
            · rw [if_pos hd] at h
              rcases hcf : ceilFloat (digitsToNat (up.intd ++ up.frac))
                  (-((ue - (up.frac.length : Int)) -
                    (ve - (vp.frac.length : Int)))).toNat with _ | c
              · rw [hcf] at h; simp at h
              · rw [hcf] at h
                exact ⟨vp, natRepr c, rfl, natRepr_digits c,
                  (Except.ok.inj h).symm⟩
            · rw [if_neg hd] at h
              refine ⟨vp, up.intd ++ up.frac ++
                zeros (((ue - (up.frac.length : Int)) -
                  (ve - (vp.frac.length : Int))).toNat), rfl, ?_,
                (Except.ok.inj h).symm⟩
              intro c hc
              rcases List.mem_append.mp hc with hc' | hc'
              · rcases List.mem_append.mp hc' with hc'' | hc''
                · exact (numberFullmatchL_classes hu).2.1 c hc''
                · exact (numberFullmatchL_classes hu).2.2.2 c hc''
              · exact zeros_digits _ c hc'


/-! ### Exact ceiling (claim side, for C4) -/

/-- The exact integer ceiling of `m / 10 ^ k`: the claim's
`ceil(unc_digits * 10 ^ discrepancy)` computed over the rationals, for
`discrepancy = -k`. -/
def ceilPow10 (m k : Nat) : Nat := (m + 10 ^ k - 1) / 10 ^ k

/-! ### Claim C1 -/

/-- C1 (amended): for every value and uncertainty string on which
`format_uncertain_value` succeeds (both inputs then necessarily fully
match the decimal-literal grammar; the function can instead fail on
grammar-matching inputs, e.g. when an exponent field is a bare sign),
the output is the value's literal text with a parenthesized digit
string inserted immediately after the fractional-digit run and before
the exponent marker, and stripping the parenthetical from the output
yields the original value string exactly. -/
theorem c1_output_reproduces_value (v u out : String)
    (h : format_uncertain_value v u = Except.ok out) :
    ∃ vp d, numberFullmatchL v.data = some vp ∧
      (∀ c ∈ d, isDigitCh c = true) ∧
      out = recompose vp d ∧ stripParen out = v := by
  obtain ⟨vp, d, hv, hd, hout⟩ := format_uncertain_value_ok h
  refine ⟨vp, d, hv, hd, hout, ?_⟩
  obtain ⟨hs, hi, hp, hf⟩ := numberFullmatchL_classes hv
  rw [hout, stripParen_recompose hd hs hi hp hf, numberFullmatchL_append hv]

theorem c1_witness :
    ∃ vp d, numberFullmatchL "1.5".data = some vp ∧
      (∀ c ∈ d, isDigitCh c = true) ∧
      ("1.5(02)" : String) = recompose vp d ∧
      stripParen "1.5(02)" = "1.5" :=
  c1_output_reproduces_value "1.5" "0.2" "1.5(02)" (by rfl)

/-- C1 counterexample to the claim as stated: `"1e+"` fully matches the
decimal-literal grammar (exponent marker present, exponent digit run a
bare sign), and so does `"1"`, yet `format_uncertain_value` produces no
output at all on them (Python `int("+")` raises `ValueError`), so the
output cannot reproduce the value string. -/
theorem c1_counterexample :
    (numberFullmatchL "1e+".data).isSome = true ∧
    (numberFullmatchL "1".data).isSome = true ∧
    format_uncertain_value "1e+" "1" = Except.error FmtError.valueError :=
  ⟨rfl, rfl, rfl⟩

/-! ### Claim C2 -/

/-- C2 counterexample: the result on `("1.234", "0.006")` is not
`"1.234(6)"`-style `"1.234(006)"`; the integer digit `0` of the
uncertainty is part of `unc_digits`. -/
theorem c2_counterexample :
    format_uncertain_value "1.234" "0.006" ≠ Except.ok "1.234(006)" := by
  intro h
  have e : format_uncertain_value "1.234" "0.006" =
      Except.ok "1.234(0006)" := rfl
  have h2 : ("1.234(0006)" : String) = "1.234(006)" :=
    Except.ok.inj (e.symm.trans h)
  exact absurd h2 (by decide)

/-- C2 (amended): `format_uncertain_value("1.234", "0.006")` returns
exactly `"1.234(0006)"` — `unc_digits` is the concatenation of the
uncertainty's integer digit run `"0"` and fractional digit run `"006"`,
and the discrepancy-0 branch pads nothing, so all four digits are
displayed. -/
theorem c2_value_format : format_uncertain_value "1.234" "0.006" =
    Except.ok "1.234(0006)" := rfl

/-! ### Claim C3 -/

set_option maxRecDepth 8000 in
/-- C3 counterexample: the result on `("2.0", "0.003")` is not
`"2.0(003)"`: the uncertainty has three fractional digits against one
for the value, so the discrepancy is `-2`, not `0`. -/
theorem c3_counterexample :
    format_uncertain_value "2.0" "0.003" ≠ Except.ok "2.0(003)" := by
  intro h
  have e : format_uncertain_value "2.0" "0.003" = Except.ok "2.0(1)" := by
    rfl
  have h2 : ("2.0(1)" : String) = "2.0(003)" :=
    Except.ok.inj (e.symm.trans h)
  exact absurd h2 (by decide)

set_option maxRecDepth 8000 in
/-- C3 (amended): `format_uncertain_value("2.0", "0.003")` returns
exactly `"2.0(1)"`: discrepancy is `(0 - 3) - (0 - 1) = -2`, and
`ceil(float("0003e-2")) = ceil(0.03) = 1`. -/
theorem c3_value_format : format_uncertain_value "2.0" "0.003" =
    Except.ok "2.0(1)" := by rfl

/-! ### Claim C4 -/

set_option maxRecDepth 8000 in
/-- C4 counterexample: at value `"1"` and uncertainty
`"100000000000000000.1"` the discrepancy is `-1` and
`unc_digits = 1000000000000000001`; the exact integer ceiling of
`unc_digits / 10` is `100000000000000001`, but the code displays
`100000000000000000`: the 19-digit decimal is first rounded to the
nearest binary64 value, which is exactly `1e17`, before the ceiling is
taken. -/
theorem c4_counterexample :
    format_uncertain_value "1" "100000000000000000.1" =
      Except.ok "1(100000000000000000)" ∧
    ceilPow10 1000000000000000001 1 = 100000000000000001 ∧
    ("1(100000000000000000)" : String) ≠ "1(100000000000000001)" :=
  ⟨by rfl, by rfl, by decide⟩

/-- C4 (amended): for every well-formed value and non-zero uncertainty
with negative discrepancy, the displayed uncertainty digits are the
decimal representation of the integer ceiling of the IEEE-754 binary64
value nearest to `unc_digits * 10 ^ discrepancy` (the result of
`ceil(float(...))`), not of the exact rational product; the two agree
whenever the binary64 conversion does not cross an integer. -/
theorem c4_ceiling_of_float (v u : String) (vp up : NumParts)
    (ve ue : Int) (c : Nat)
    (hv : numberFullmatchL v.data = some vp)
    (hu : numberFullmatchL u.data = some up)
    (hz : digitsToNat (up.intd ++ up.frac) ≠ 0)
    (hve : parseExpInt vp.expd = some ve)
    (hue : parseExpInt up.expd = some ue)
    (hd : (ue - (up.frac.length : Int)) - (ve - (vp.frac.length : Int)) < 0)
    (hc : ceilFloat (digitsToNat (up.intd ++ up.frac))
      (-((ue - (up.frac.length : Int)) -
        (ve - (vp.frac.length : Int)))).toNat = some c) :
    format_uncertain_value v u = Except.ok (recompose vp (natRepr c)) := by
  simp only [format_uncertain_value]
  rw [hv, hu]
  simp only []
  rw [if_neg hz, hve, hue]
  simp only []
  rw [if_pos hd, hc]

set_option maxRecDepth 8000 in
theorem c4_witness :
    format_uncertain_value "1" "0.15" = Except.ok "1(1)" :=
  c4_ceiling_of_float "1" "0.15"
    ⟨[], ['1'], [], [], [], []⟩ ⟨[], ['0'], ['.'], ['1', '5'], [], []⟩
    0 0 1 (by rfl) (by rfl) (by decide) (by rfl) (by rfl)
    (by decide) (by rfl)

/-! ### Claim C5 -/

/-- C5: for every well-formed value and non-zero uncertainty whose
discrepancy is at least zero, the displayed uncertainty digits are
`unc_digits` (the uncertainty's concatenated integer and fractional
digit runs) right-padded with exactly `discrepancy` zero characters;
in particular `format_uncertain_value("5", "12")` returns `"5(12)"`. -/
theorem c5_padding :
    (∀ (v u : String) (vp up : NumParts) (ve ue : Int),
      numberFullmatchL v.data = some vp →
      numberFullmatchL u.data = some up →
      digitsToNat (up.intd ++ up.frac) ≠ 0 →
      parseExpInt vp.expd = some ve →
      parseExpInt up.expd = some ue →
      0 ≤ (ue - (up.frac.length : Int)) - (ve - (vp.frac.length : Int)) →
      format_uncertain_value v u = Except.ok (recompose vp
        (up.intd ++ up.frac ++
          zeros ((ue - (up.frac.length : Int)) -
            (ve - (vp.frac.length : Int))).toNat))) ∧
    format_uncertain_value "5" "12" = Except.ok "5(12)" := by
  refine ⟨?_, rfl⟩
  intro v u vp up ve ue hv hu hz hve hue hd
  simp only [format_uncertain_value]
  rw [hv, hu]
  simp only []
  rw [if_neg hz, hve, hue]
  simp only []
  rw [if_neg (not_lt.mpr hd)]

theorem c5_witness :
    format_uncertain_value "3.14" "0.25" = Except.ok "3.14(025)" :=
  c5_padding.1 "3.14" "0.25"
    ⟨[], ['3'], ['.'], ['1', '4'], [], []⟩
    ⟨[], ['0'], ['.'], ['2', '5'], [], []⟩
    0 0 (by rfl) (by rfl) (by decide) (by rfl) (by rfl) (by decide)

/-! ### Claim C9 -/

/-- C9: for every well-formed value and uncertainty, if the
uncertainty's concatenated integer and fractional digit runs are
numerically zero, the displayed uncertainty is the single digit `"0"`
with no rounding or padding; in particular
`format_uncertain_value("9.81", "0")` returns `"9.81(0)"`. -/
theorem c9_zero_uncertainty :
    (∀ (v u : String) (vp up : NumParts),
      numberFullmatchL v.data = some vp →
      numberFullmatchL u.data = some up →
      digitsToNat (up.intd ++ up.frac) = 0 →
      format_uncertain_value v u = Except.ok (recompose vp ['0'])) ∧
    format_uncertain_value "9.81" "0" = Except.ok "9.81(0)" := by
  refine ⟨?_, rfl⟩
  intro v u vp up hv hu hz
  simp only [format_uncertain_value]
  rw [hv, hu]
  simp only []
  rw [if_pos hz]

theorem c9_witness :
    format_uncertain_value "7" "0.0" = Except.ok "7(0)" :=
  c9_zero_uncertainty.1 "7" "0.0"
    ⟨[], ['7'], [], [], [], []⟩ ⟨[], ['0'], ['.'], ['0'], [], []⟩
    (by rfl) (by rfl) (by rfl)

/-! ### Claim C8 -/

/-- C8: `format_uncertain_value` fails with the malformed-number error
(the spec's `MalformedNumberError`) exactly when at least one of its
two inputs does not fully match the decimal-literal grammar; failures
on grammar-matching inputs (bare-sign exponent fields, float overflow)
carry different errors. -/
theorem c8_malformed_iff (v u : String) :
    (∃ s, format_uncertain_value v u =
      Except.error (FmtError.malformed s)) ↔
      (numberFullmatchL v.data = none ∨ numberFullmatchL u.data = none) := by
  rcases hv : numberFullmatchL v.data with _ | vp
  · constructor
    · intro _; exact Or.inl rfl
    · intro _
      exact ⟨v, by simp only [format_uncertain_value]; rw [hv]⟩
  · rcases hu : numberFullmatchL u.data with _ | up
    · constructor
      · intro _; exact Or.inr rfl
      · intro _
        exact ⟨u, by simp only [format_uncertain_value]; rw [hv, hu]⟩
    · constructor
      · rintro ⟨s, hs⟩
        simp only [format_uncertain_value] at hs
        rw [hv, hu] at hs
        simp only [] at hs
        by_cases hz : digitsToNat (up.intd ++ up.frac) = 0
        · rw [if_pos hz] at hs; simp at hs
        · rw [if_neg hz] at hs
          rcases hve : parseExpInt vp.expd with _ | ve <;> rw [hve] at hs
          · simp at hs
          · rcases hue : parseExpInt up.expd with _ | ue <;> rw [hue] at hs
            · simp at hs
            · simp only [] at hs
              by_cases hd : (ue - (up.frac.length : Int)) -
                  (ve - (vp.frac.length : Int)) < 0
              · rw [if_pos hd] at hs
                rcases hcf : ceilFloat (digitsToNat (up.intd ++ up.frac))
                    (-((ue - (up.frac.length : Int)) -
                      (ve - (vp.frac.length : Int)))).toNat with _ | c <;>
                  rw [hcf] at hs <;> simp at hs
              · rw [if_neg hd] at hs; simp at hs
      · rintro (h' | h') <;> simp at h'

theorem c8_witness :
    (∃ s, format_uncertain_value "x1" "1" =
      Except.error (FmtError.malformed s)) ↔
      (numberFullmatchL "x1".data = none ∨
        numberFullmatchL "1".data = none) :=
  c8_malformed_iff "x1" "1"

/-! ### Unit formatter lemmas -/

/-- If some token's base symbol is absent from the table, the rendering
loop fails, and the error names a token base that is absent from the
table (the first such token). -/
theorem formatGo_error (ts : List UnitToken) :
    ∀ acc : String, (∃ t ∈ ts, unit_map.lookup (String.mk t.base) = none) →
      ∃ b, formatGo ts acc = Except.error b ∧ unit_map.lookup b = none ∧
        b ∈ ts.map (fun t => String.mk t.base) := by
  induction ts with
  | nil => rintro acc ⟨t, ht, _⟩; cases ht
  | cons t ts ih =>
    rintro acc ⟨t', ht', hnone⟩
    rcases hlk : unit_map.lookup (String.mk t.base) with _ | mk
    · exact ⟨String.mk t.base, by simp [formatGo, hlk], hlk, by simp⟩
    · rcases List.mem_cons.mp ht' with rfl | ht''
      · rw [hlk] at hnone; cases hnone
      · obtain ⟨b, hb, hbn, hbm⟩ := ih _ ⟨t', ht'', hnone⟩
        exact ⟨b, by simp only [formatGo, hlk]; exact hb, hbn,
          List.mem_cons_of_mem _ hbm⟩

/-- The rendering loop either succeeds or fails naming a token base
that is absent from the table; no other failure exists. -/
theorem formatGo_total (ts : List UnitToken) :
    ∀ acc : String, (∃ o, formatGo ts acc = Except.ok o) ∨
      ∃ b, formatGo ts acc = Except.error b ∧ unit_map.lookup b = none ∧
        b ∈ ts.map (fun t => String.mk t.base) := by
  induction ts with
  | nil => intro acc; exact Or.inl ⟨acc, rfl⟩
  | cons t ts ih =>
    intro acc
    rcases hlk : unit_map.lookup (String.mk t.base) with _ | mk
    · exact Or.inr ⟨String.mk t.base, by simp [formatGo, hlk], hlk, by simp⟩
    · rcases ih (acc ++ perMark t.sign ++ powMark t.exp ++ mk) with
        ⟨o, ho⟩ | ⟨b, hb, hbn, hbm⟩
      · exact Or.inl ⟨o, by simp only [formatGo, hlk]; exact ho⟩
      · exact Or.inr ⟨b, by simp only [formatGo, hlk]; exact hb, hbn,
          List.mem_cons_of_mem _ hbm⟩

/-! ### Claim C6 -/

/-- C6: a unit token whose base symbol is in the table is rendered as a
reciprocal marker first when the exponent sign is present, no power
marker when the exponent is `1` or absent, a squared marker for
exponent `2`, a cubed marker for `3`, a generic raised-to-the-power
marker otherwise, followed by the base symbol's markup; concretely,
`format_unit("m") = "\metre"`,
`format_unit("s^-2") = "\per\square\second"`, and
`format_unit("kg^3") = "\cube\kilogram"`. -/
theorem c6_token_rendering :
    (∀ (t : UnitToken) (mk acc : String),
      unit_map.lookup (String.mk t.base) = some mk →
      formatGo [t] acc = Except.ok (acc ++
        (if t.sign = [] then "" else "\\per") ++
        (if t.exp = [] ∨ t.exp = ['1'] then ""
         else if t.exp = ['2'] then "\\square"
         else if t.exp = ['3'] then "\\cube"
         else "\\raiseto\x7b" ++ String.mk t.exp ++ "\x7d") ++ mk)) ∧
    format_unit "m" = Except.ok "\\metre" ∧
    format_unit "s^-2" = Except.ok "\\per\\square\\second" ∧
    format_unit "kg^3" = Except.ok "\\cube\\kilogram" := by
  refine ⟨?_, rfl, rfl, rfl⟩
  intro t mk acc h
  have hpow : powMark t.exp =
      (if t.exp = [] ∨ t.exp = ['1'] then ""
       else if t.exp = ['2'] then "\\square"
       else if t.exp = ['3'] then "\\cube"
       else "\\raiseto\x7b" ++ String.mk t.exp ++ "\x7d") := by
    unfold powMark
    by_cases h1 : t.exp = ['1']
    · simp [h1]
    · by_cases h0 : t.exp = []
      · simp [h0]
      · simp only [h0, h1, or_self, if_false, false_or]
  have hper : perMark t.sign = (if t.sign = [] then "" else "\\per") := rfl
  simp only [formatGo, h, hper, hpow]

theorem c6_witness :
    formatGo [⟨['m', 'o', 'l'], ['-'], ['4']⟩] "" =
      Except.ok ("" ++ "\\per" ++ ("\\raiseto\x7b" ++ "4" ++ "\x7d") ++
        "\\mole") := by
  have h := c6_token_rendering.1 ⟨['m', 'o', 'l'], ['-'], ['4']⟩
    "\\mole" "" (by rfl)
  simpa using h

/-! ### Claim C7 -/

/-- C7: a unit expression containing a token whose base symbol is
absent from the table makes `format_unit` fail with an error naming an
absent token base (the first one reached), with no default substituted;
in particular `format_unit("xyz")` fails naming `"xyz"`. -/
theorem c7_unknown_unit :
    (∀ s : String,
      (∃ t ∈ scanTokens s, unit_map.lookup (String.mk t.base) = none) →
      ∃ b, format_unit s = Except.error b ∧ unit_map.lookup b = none ∧
        b ∈ (scanTokens s).map (fun t => String.mk t.base)) ∧
    format_unit "xyz" = Except.error "xyz" := by
  refine ⟨?_, rfl⟩
  intro s hs
  exact formatGo_error (scanTokens s) "" hs

theorem c7_witness :
    ∃ b, format_unit "abc xyz" = Except.error b ∧
      unit_map.lookup b = none ∧
      b ∈ (scanTokens "abc xyz").map (fun t => String.mk t.base) :=
  c7_unknown_unit.1 "abc xyz" ⟨⟨['a', 'b', 'c'], [], []⟩, by decide, by rfl⟩

/-! ### Claim C10 -/

/-- C10: `format_unit` never fails on syntactically malformed input:
input characters that do not form a token are skipped by the scanner
rather than reported, and the only possible error names a matched token
base that is absent from the table; in particular `format_unit("")`
returns the empty string. -/
theorem c10_no_syntax_failure :
    format_unit "" = Except.ok "" ∧
    (∀ s : String, (∃ o, format_unit s = Except.ok o) ∨
      ∃ b, format_unit s = Except.error b ∧ unit_map.lookup b = none ∧
        b ∈ (scanTokens s).map (fun t => String.mk t.base)) := by
  refine ⟨rfl, ?_⟩
  intro s
  exact formatGo_total (scanTokens s) ""

theorem c10_witness :
    (∃ o, format_unit "@ 3.5 %" = Except.ok o) ∨
      ∃ b, format_unit "@ 3.5 %" = Except.error b ∧
        unit_map.lookup b = none ∧
        b ∈ (scanTokens "@ 3.5 %").map (fun t => String.mk t.base) :=
  c10_no_syntax_failure.2 "@ 3.5 %"

end Texumsa
